import Mathlib

/-!
Verification of the gomoku win/loss solver in `gtp_connection.py`.

The embedding covers the module-level mutable state (the snapshot `stack`,
the `debug` log, standard output, the global `TIME_LIMIT`, and the position
of the wall clock), the stack operations `save_board` / `undo` /
`setGlobalTime`, the top-level driver `Minimax`, and the mutually recursive
prover `MinimaxBooleanOR` / `MinimaxBooleanAND`.

Conventions of the embedding:
* Python appends to and pops from the *tail* of the global `stack` list;
  here the head of `St.stack` is the top of the stack (an order-reversing
  but otherwise exact rendering of LIFO push/pop).
* `board.copy()` is the identity under the value semantics of the
  embedding, so `save_board` pushes the board value itself.
* `list.pop()` on an empty list raises `IndexError`; a raised exception is
  rendered as an `Except.error` result paired with the module state at the
  moment of the raise (Python globals keep their mutations when an
  exception propagates).
* `time.time()` is a sequence of clock readings `Env.clock : Nat → ℚ`;
  `St.tick` is the index of the next reading.  Wall-clock values are
  rational numbers (the claims under study are about comparisons of time
  values, not about floating-point rounding).
* Python integer subtraction `depth - 1` is `Nat` subtraction here; the
  driver is only ever invoked with `depth = 2`, and every recursive call
  the prover makes uses `depth - 1` under a `depth ≠ 0` guard, where the
  two agree.
-/

/-- Modelled from the spec: the two player colours (the `BLACK` / `WHITE`
integer codes are imported from `board_util`, which is not part of this
repository).  The search code only ever handles the two player colours. -/
inductive Color where
  | black
  | white
deriving DecidableEq, Repr

/-- `opposite_color` from the source, on the two player colours. -/
def opposite_color : Color → Color
  | .black => .white
  | .white => .black

/-- Modelled from the spec: the external collaborators consumed by the
search (board-object methods, `GoBoardUtil.generate_legal_moves_gomoku`,
and the wall clock `time.time()` as a sequence of readings), specified at
their interface in §6 of the spec; their code is not under `src/`. -/
structure Env (B M : Type) where
  generate_legal_moves_gomoku : B → List M
  play_move_gomoku : B → M → Color → B
  check_game_end_gomoku : B → Bool × Color
  StatisticallyEvaluate : B → Bool → Bool × Color × Int
  clock : Nat → ℚ

/-- The module-level mutable state of `gtp_connection.py`: the global
snapshot `stack`, the `debug` log, standard output (the `print` calls),
the global `TIME_LIMIT`, and the index of the next `time.time()`
reading. -/
structure St (B : Type) where
  stack : List B
  debug : List String
  out : List String
  timeLimit : ℚ
  tick : Nat

/-- `INFINITY = 9223372036854775807` from the source. -/
def INFINITY : Int := 9223372036854775807

/-- `NINFINITY = -9223372036854775807` from the source. -/
def NINFINITY : Int := -9223372036854775807

/-- `save_board(board)`: push a copy of the board and log `"Stored board"`. -/
def save_board {B : Type} (board : B) (st : St B) : St B :=
  { st with
      stack := board :: st.stack
      debug := st.debug ++ ["Stored board"] }

/-- `undo()`: log `"Undid board"`, print a warning when the stack is empty,
and pop.  On an empty stack Python's `stack.pop()` raises `IndexError`,
rendered as an `Except.error` value. -/
def undo {B : Type} (st : St B) : Except String B × St B :=
  let st := { st with debug := st.debug ++ ["Undid board"] }
  match st.stack with
  | [] =>
      (Except.error "IndexError: pop from empty list",
        { st with out := st.out ++ ["Stack is empty!"] })
  | b :: rest => (Except.ok b, { st with stack := rest })

/-- `setGlobalTime(time)`: overwrite the global `TIME_LIMIT`. -/
def setGlobalTime {B : Type} (t : ℚ) (st : St B) : St B :=
  { st with timeLimit := t }

mutual

/-- `MinimaxBooleanOR(board, depth, color, alpha, beta)` from the source:
the maximizing prover node.  It prints `TIME_LIMIT`, then either returns
the static evaluation (depth exhausted or no legal moves) or iterates the
legal moves through `orLoop`. -/
def MinimaxBooleanOR {B M : Type} (env : Env B M) (board : B) (depth : Nat)
    (color : Color) (alpha beta : Int) (st : St B) :
    Except String (Bool × Color × Int) × St B :=
  let moves := env.generate_legal_moves_gomoku board
  let st := { st with out := st.out ++ [toString st.timeLimit] }
  match depth, moves with
  | _, [] => (Except.ok (env.StatisticallyEvaluate board false), st)
  | 0, _ :: _ => (Except.ok (env.StatisticallyEvaluate board true), st)
  | d + 1, m :: ms => orLoop env d color alpha beta false 0 (m :: ms) board st
termination_by (depth, 0, 0)

/-- The `for move in moves` loop of `MinimaxBooleanOR`, with `d` the child
depth (`depth - 1` at the call site).  Each iteration pushes the board,
plays the move, recurses into the AND node, re-perspectives the child
result, folds it into `is_win` / `best_points`, pops the board back and
possibly raises `alpha`. -/
def orLoop {B M : Type} (env : Env B M) (d : Nat) (color : Color)
    (alpha beta : Int) (is_win : Bool) (best_points : Int)
    (moves : List M) (board : B) (st : St B) :
    Except String (Bool × Color × Int) × St B :=
  match moves with
  | [] => (Except.ok (is_win, color, best_points), st)
  | move :: rest =>
    let st := save_board board st
    let board2 := env.play_move_gomoku board move color
    match MinimaxBooleanAND env board2 d (opposite_color color) alpha beta st with
    | (Except.error e, st2) => (Except.error e, st2)
    | (Except.ok wcp, st2) =>
      let win := if wcp.2.1 ≠ color then false else wcp.1
      let points := if wcp.2.1 ≠ color then -wcp.2.2 else wcp.2.2
      let is_win := if win then true else is_win
      let best_points := if points > best_points then points else best_points
      match undo st2 with
      | (Except.error e, st3) => (Except.error e, st3)
      | (Except.ok b, st3) =>
        let alpha := if best_points ≥ alpha then best_points else alpha
        orLoop env d color alpha beta is_win best_points rest b st3
termination_by (d, 1, moves.length)

/-- `MinimaxBooleanAND(board, depth, color, alpha, beta)` from the source:
the refuting prover node. -/
def MinimaxBooleanAND {B M : Type} (env : Env B M) (board : B) (depth : Nat)
    (color : Color) (alpha beta : Int) (st : St B) :
    Except String (Bool × Color × Int) × St B :=
  let moves := env.generate_legal_moves_gomoku board
  match depth, moves with
  | _, [] => (Except.ok (env.StatisticallyEvaluate board false), st)
  | 0, _ :: _ => (Except.ok (env.StatisticallyEvaluate board true), st)
  | d + 1, m :: ms => andLoop env d color alpha beta 10000 (m :: ms) board st
termination_by (depth, 0, 0)

/-- The `for move in moves` loop of `MinimaxBooleanAND`, with `d` the child
depth.  The first re-perspectived child that does not prove a win causes an
immediate `(false, opposite_color color, points)` return (after popping);
otherwise the minimum is tracked in `worst_points` and `beta` possibly
lowered. -/
def andLoop {B M : Type} (env : Env B M) (d : Nat) (color : Color)
    (alpha beta : Int) (worst_points : Int)
    (moves : List M) (board : B) (st : St B) :
    Except String (Bool × Color × Int) × St B :=
  match moves with
  | [] => (Except.ok (true, opposite_color color, worst_points), st)
  | move :: rest =>
    let st := save_board board st
    let board2 := env.play_move_gomoku board move color
    match MinimaxBooleanOR env board2 d (opposite_color color) alpha beta st with
    | (Except.error e, st2) => (Except.error e, st2)
    | (Except.ok wcp, st2) =>
      let win := if wcp.2.1 ≠ opposite_color color then false else wcp.1
      let points := if wcp.2.1 ≠ opposite_color color then -wcp.2.2 else wcp.2.2
      if win = false then
        match undo st2 with
        | (Except.error e, st3) => (Except.error e, st3)
        | (Except.ok _, st3) =>
          (Except.ok (false, opposite_color color, points), st3)
      else
        let worst_points := if points < worst_points then points else worst_points
        match undo st2 with
        | (Except.error e, st3) => (Except.error e, st3)
        | (Except.ok b, st3) =>
          let beta := if worst_points ≤ beta then points else beta
          andLoop env d color alpha beta worst_points rest b st3
termination_by (d, 1, moves.length)

end

/-- The `for move in moves` loop of `Minimax`, with `start_time` the clock
reading taken at the start of the call.  Before each candidate the elapsed
time is compared with the global `TIME_LIMIT`; at or beyond the budget the
whole call returns `(4, none)`.  Otherwise the candidate is pushed, played,
handed to the AND prover at `depth - 1`, folded into the running best
(strict improvement for a win, exact zero for a draw), and popped. -/
def minimaxLoop {B M : Type} (env : Env B M) (depth : Nat) (color : Color)
    (alpha beta : Int) (best_points : Int) (best_move : Option M)
    (is_win : Nat) (start_time : ℚ)
    (moves : List M) (board : B) (st : St B) :
    Except String (Nat × Option M) × St B :=
  match moves with
  | [] => (Except.ok (is_win, best_move), st)
  | move :: rest =>
    let time_elapsed := env.clock st.tick - start_time
    let st := { st with tick := st.tick + 1 }
    if time_elapsed ≥ st.timeLimit then (Except.ok (4, none), st)
    else
      let st := { st with out := st.out ++ [toString time_elapsed] }
      let st := save_board board st
      let board2 := env.play_move_gomoku board move color
      match MinimaxBooleanAND env board2 (depth - 1) (opposite_color color) alpha beta st with
      | (Except.error e, st2) => (Except.error e, st2)
      | (Except.ok wcp, st2) =>
        let win := wcp.1
        let points := wcp.2.2
        let is_win2 := if win = true ∧ points > best_points then 2 else is_win
        let best_move2 := if win = true ∧ points > best_points then some move else best_move
        let best_points2 := if win = true ∧ points > best_points then points else best_points
        let alpha2 := if win = true ∧ points > best_points then points else alpha
        let is_win3 := if is_win2 ≠ 2 ∧ points = 0 then 1 else is_win2
        let best_move3 := if is_win2 ≠ 2 ∧ points = 0 then some move else best_move2
        match undo st2 with
        | (Except.error e, st3) => (Except.error e, st3)
        | (Except.ok b, st3) =>
          minimaxLoop env depth color alpha2 beta best_points2 best_move3 is_win3
            start_time rest b st3

/-- `Minimax(board, depth, color)` from the source: read the clock, check
whether the game already ended in favour of the opponent (early
`(0, None)` return), then run the candidate loop, starting from
`best_points = 0`, `best_move = None`, `is_win = 0`, `alpha = NINFINITY`,
`beta = INFINITY`. -/
def Minimax {B M : Type} (env : Env B M) (board : B) (depth : Nat)
    (color : Color) (st : St B) : Except String (Nat × Option M) × St B :=
  let start_time := env.clock st.tick
  let st := { st with tick := st.tick + 1 }
  let moves := env.generate_legal_moves_gomoku board
  let wc := env.check_game_end_gomoku board
  if wc.1 = true ∧ wc.2 = opposite_color color then
    (Except.ok (0, none), st)
  else
    minimaxLoop env depth color NINFINITY INFINITY 0 none 0 start_time moves board st

/-!
Pure result functions.  `MinimaxBooleanOR` / `MinimaxBooleanAND` never read
the module state: they only push a snapshot, recurse, and pop that same
snapshot back.  The following mirrors compute their returned triple
directly, with the state threading elided; the equivalence with the
stateful functions (together with stack balance and the impossibility of a
stack underflow inside a search) is proved below in `OR_AND_run`.
-/

mutual

/-- The value returned by `MinimaxBooleanOR` (state threading elided). -/
def orRes {B M : Type} (env : Env B M) (board : B) (depth : Nat)
    (color : Color) (alpha beta : Int) : Bool × Color × Int :=
  let moves := env.generate_legal_moves_gomoku board
  match depth, moves with
  | _, [] => env.StatisticallyEvaluate board false
  | 0, _ :: _ => env.StatisticallyEvaluate board true
  | d + 1, m :: ms => orLoopRes env d color alpha beta false 0 (m :: ms) board
termination_by (depth, 0, 0)

/-- The value returned by `orLoop` (state threading elided; the board after
the pop is the board pushed at the start of the iteration). -/
def orLoopRes {B M : Type} (env : Env B M) (d : Nat) (color : Color)
    (alpha beta : Int) (is_win : Bool) (best_points : Int)
    (moves : List M) (board : B) : Bool × Color × Int :=
  match moves with
  | [] => (is_win, color, best_points)
  | move :: rest =>
    let wcp := andRes env (env.play_move_gomoku board move color) d
        (opposite_color color) alpha beta
    let win := if wcp.2.1 ≠ color then false else wcp.1
    let points := if wcp.2.1 ≠ color then -wcp.2.2 else wcp.2.2
    let is_win := if win then true else is_win
    let best_points := if points > best_points then points else best_points
    let alpha := if best_points ≥ alpha then best_points else alpha
    orLoopRes env d color alpha beta is_win best_points rest board
termination_by (d, 1, moves.length)

/-- The value returned by `MinimaxBooleanAND` (state threading elided). -/
def andRes {B M : Type} (env : Env B M) (board : B) (depth : Nat)
    (color : Color) (alpha beta : Int) : Bool × Color × Int :=
  let moves := env.generate_legal_moves_gomoku board
  match depth, moves with
  | _, [] => env.StatisticallyEvaluate board false
  | 0, _ :: _ => env.StatisticallyEvaluate board true
  | d + 1, m :: ms => andLoopRes env d color alpha beta 10000 (m :: ms) board
termination_by (depth, 0, 0)

/-- The value returned by `andLoop` (state threading elided). -/
def andLoopRes {B M : Type} (env : Env B M) (d : Nat) (color : Color)
    (alpha beta : Int) (worst_points : Int)
    (moves : List M) (board : B) : Bool × Color × Int :=
  match moves with
  | [] => (true, opposite_color color, worst_points)
  | move :: rest =>
    let wcp := orRes env (env.play_move_gomoku board move color) d
        (opposite_color color) alpha beta
    let win := if wcp.2.1 ≠ opposite_color color then false else wcp.1
    let points := if wcp.2.1 ≠ opposite_color color then -wcp.2.2 else wcp.2.2
    if win = false then (false, opposite_color color, points)
    else
      let worst_points := if points < worst_points then points else worst_points
      let beta := if worst_points ≤ beta then points else beta
      andLoopRes env d color alpha beta worst_points rest board
termination_by (d, 1, moves.length)

end

/-- The value returned by `minimaxLoop` (state threading elided).
`elapsedAt k` is the elapsed time `time.time() - start_time` observed at
the check before the `k`-th remaining candidate. -/
def minimaxLoopRes {B M : Type} (env : Env B M) (depth : Nat) (color : Color)
    (alpha beta : Int) (best_points : Int) (best_move : Option M)
    (is_win : Nat) (timeLimit : ℚ) (elapsedAt : Nat → ℚ)
    (moves : List M) (board : B) : Nat × Option M :=
  match moves with
  | [] => (is_win, best_move)
  | move :: rest =>
    if elapsedAt 0 ≥ timeLimit then (4, none)
    else
      let wcp := andRes env (env.play_move_gomoku board move color) (depth - 1)
          (opposite_color color) alpha beta
      let win := wcp.1
      let points := wcp.2.2
      let is_win2 := if win = true ∧ points > best_points then 2 else is_win
      let best_move2 := if win = true ∧ points > best_points then some move else best_move
      let best_points2 := if win = true ∧ points > best_points then points else best_points
      let alpha2 := if win = true ∧ points > best_points then points else alpha
      let is_win3 := if is_win2 ≠ 2 ∧ points = 0 then 1 else is_win2
      let best_move3 := if is_win2 ≠ 2 ∧ points = 0 then some move else best_move2
      minimaxLoopRes env depth color alpha2 beta best_points2 best_move3 is_win3
        timeLimit (fun k => elapsedAt (k + 1)) rest board

/-- The value returned by `Minimax` (state threading elided). -/
def minimaxRes {B M : Type} (env : Env B M) (board : B) (depth : Nat)
    (color : Color) (timeLimit : ℚ) (elapsedAt : Nat → ℚ) : Nat × Option M :=
  let wc := env.check_game_end_gomoku board
  if wc.1 = true ∧ wc.2 = opposite_color color then (0, none)
  else
    minimaxLoopRes env depth color NINFINITY INFINITY 0 none 0 timeLimit elapsedAt
      (env.generate_legal_moves_gomoku board) board

/-- `e` extends `d` and the extension contains as many `"Stored board"`
entries as `"Undid board"` entries: the debug log records exactly one
`"Stored board"` per `save_board` (push) and one `"Undid board"` per
`undo` (pop), so this says the extension performed equally many pops and
pushes. -/
def DebugBalanced (d e : List String) : Prop :=
  d <+: e ∧ e.count "Stored board" + d.count "Undid board"
    = e.count "Undid board" + d.count "Stored board"

/-- `f` is a state transformer that returns exactly `r`, preserves the
stack, the time limit and the clock position, and appends a balanced
push/pop trace to the debug log. -/
def RunsTo {B : Type} (f : St B → Except String (Bool × Color × Int) × St B)
    (r : Bool × Color × Int) : Prop :=
  ∀ st : St B, (f st).1 = Except.ok r
    ∧ (f st).2.stack = st.stack
    ∧ (f st).2.timeLimit = st.timeLimit
    ∧ (f st).2.tick = st.tick
    ∧ DebugBalanced st.debug (f st).2.debug

/-- The re-perspectived `(win, score)` pair the AND node at `board` derives
from its child `move`: the OR result of the position after `move`, with
`win` cleared and the score negated when the returned mover colour differs
from the expected `opposite_color color`.  (The `alpha` / `beta` bounds are
fixed at `NINFINITY` / `INFINITY`; by `orRes_andRes_irrel` they do not
matter.) -/
def andChildRes {B M : Type} (env : Env B M) (board : B) (d : Nat)
    (color : Color) (move : M) : Bool × Int :=
  let wcp := orRes env (env.play_move_gomoku board move color) d
      (opposite_color color) NINFINITY INFINITY
  (if wcp.2.1 ≠ opposite_color color then false else wcp.1,
    if wcp.2.1 ≠ opposite_color color then -wcp.2.2 else wcp.2.2)

/-- The re-perspectived score the OR node at `board` derives from its child
`move`. -/
def orChildScore {B M : Type} (env : Env B M) (board : B) (d : Nat)
    (color : Color) (move : M) : Int :=
  let wcp := andRes env (env.play_move_gomoku board move color) d
      (opposite_color color) NINFINITY INFINITY
  if wcp.2.1 ≠ color then -wcp.2.2 else wcp.2.2

/-- The AND result the driver `Minimax` obtains for candidate `move`
(the driver reads only the `win` flag and the score from it). -/
def driverChildRes {B M : Type} (env : Env B M) (board : B) (depth : Nat)
    (color : Color) (move : M) : Bool × Color × Int :=
  andRes env (env.play_move_gomoku board move color) (depth - 1)
    (opposite_color color) NINFINITY INFINITY

/-!
Concrete test fixtures (boards are natural numbers, moves are natural
numbers, playing a move turns the board into that move).
-/

/-- Fixture: board `0` has the two legal moves `10` and `20`; every other
board has none; the static evaluation is always `(false, black, 0)`. -/
def envA : Env Nat Nat where
  generate_legal_moves_gomoku b := if b = 0 then [10, 20] else []
  play_move_gomoku _ m _ := m
  check_game_end_gomoku _ := (false, Color.black)
  StatisticallyEvaluate _ _ := (false, Color.black, 0)
  clock _ := 0

/-- Fixture: no board has a legal move. -/
def envB : Env Nat Nat where
  generate_legal_moves_gomoku _ := []
  play_move_gomoku _ m _ := m
  check_game_end_gomoku _ := (false, Color.black)
  StatisticallyEvaluate _ _ := (false, Color.black, 0)
  clock _ := 0

/-- Fixture: board `0` has the single legal move `7`; the clock stands
still at `0` for its first three readings and then jumps to `5`. -/
def envC : Env Nat Nat where
  generate_legal_moves_gomoku b := if b = 0 then [7] else []
  play_move_gomoku _ m _ := m
  check_game_end_gomoku _ := (false, Color.black)
  StatisticallyEvaluate _ _ := (false, Color.black, 0)
  clock n := if n ≤ 2 then 0 else 5

/-- Fixture: board `0` has the single legal move `5`, and the position
after it statically evaluates to a win for black with score `20000`. -/
def envD : Env Nat Nat where
  generate_legal_moves_gomoku b := if b = 0 then [5] else []
  play_move_gomoku _ m _ := m
  check_game_end_gomoku _ := (false, Color.black)
  StatisticallyEvaluate b _ := if b = 5 then (true, Color.black, 20000)
    else (false, Color.black, 0)
  clock _ := 0

/-- Fixture: every position is already decided, with white the winner. -/
def envE : Env Nat Nat where
  generate_legal_moves_gomoku _ := []
  play_move_gomoku _ m _ := m
  check_game_end_gomoku _ := (true, Color.white)
  StatisticallyEvaluate _ _ := (false, Color.black, 0)
  clock _ := 0

/-- Fixture state: empty stack and logs, time limit `1`, clock at reading
`0`. -/
def stA : St Nat := ⟨[], [], [], 1, 0⟩

/-- Fixture state: empty stack and logs, time limit `0`, clock at reading
`0`. -/
def stZ : St Nat := ⟨[], [], [], 0, 0⟩

/-!
Run lemmas: every prover call returns `Except.ok` of its pure mirror, never
touches the stack, time limit or clock position, and appends a balanced
push/pop trace to the debug log.
-/

theorem DebugBalanced.rfl (d : List String) : DebugBalanced d d :=
  ⟨List.prefix_refl d, by omega⟩

theorem DebugBalanced.step {a b c : List String}
    (h₁ : DebugBalanced (a ++ ["Stored board"]) b)
    (h₂ : DebugBalanced (b ++ ["Undid board"]) c) :
    DebugBalanced a c := by
  obtain ⟨p₁, c₁⟩ := h₁
  obtain ⟨p₂, c₂⟩ := h₂
  refine ⟨((List.prefix_append _ _).trans p₁).trans ((List.prefix_append _ _).trans p₂), ?_⟩
  simp [List.count_append] at c₁ c₂
  omega

theorem undo_cons {B : Type} (st : St B) (b : B) (rest : List B)
    (h : st.stack = b :: rest) :
    undo st = (Except.ok b,
      { st with stack := rest, debug := st.debug ++ ["Undid board"] }) := by
  rw [undo]
  simp [h]

theorem andLoop_run {B M : Type} (env : Env B M) (d : Nat)
    (hOR : ∀ board color alpha beta,
      RunsTo (MinimaxBooleanOR env board d color alpha beta)
        (orRes env board d color alpha beta)) :
    ∀ (moves : List M) (board : B) (color : Color) (alpha beta worst : Int),
      RunsTo (andLoop env d color alpha beta worst moves board)
        (andLoopRes env d color alpha beta worst moves board) := by
  intro moves
  induction moves with
  | nil =>
    intro board color alpha beta worst st
    exact ⟨by rw [andLoop, andLoopRes], by rw [andLoop], by rw [andLoop],
      by rw [andLoop], by rw [andLoop]; exact DebugBalanced.rfl _⟩
  | cons move rest ih =>
    intro board color alpha beta worst st
    rw [andLoop, andLoopRes]
    set st1 := save_board board st with hst1
    obtain ⟨h1, h2, h3, h4, h5⟩ :=
      hOR (env.play_move_gomoku board move color) (opposite_color color) alpha beta st1
    rcases hO : MinimaxBooleanOR env (env.play_move_gomoku board move color) d
        (opposite_color color) alpha beta st1 with ⟨fst, snd⟩
    rw [hO] at h1 h2 h3 h4 h5
    simp only at h1 h2 h3 h4 h5
    subst h1
    simp only []
    have hsnd : snd.stack = board :: st.stack := by
      rw [h2, hst1]; simp [save_board]
    rw [undo_cons snd board st.stack hsnd]
    have h3' : snd.timeLimit = st.timeLimit := by
      rw [h3, hst1]; simp [save_board]
    have h4' : snd.tick = st.tick := by
      rw [h4, hst1]; simp [save_board]
    have h5' : DebugBalanced (st.debug ++ ["Stored board"]) snd.debug := by
      rw [hst1] at h5; simpa [save_board] using h5
    set r := orRes env (env.play_move_gomoku board move color) d
        (opposite_color color) alpha beta with hr
    by_cases hw : (if r.2.1 ≠ opposite_color color then false else r.1) = false
    · rw [if_pos hw, if_pos hw]
      refine ⟨by rfl, by rfl, h3', h4', ?_⟩
      exact DebugBalanced.step h5' (DebugBalanced.rfl _)
    · rw [if_neg hw, if_neg hw]
      obtain ⟨g1, g2, g3, g4, g5⟩ := ih board color alpha
        (if (if (if r.2.1 ≠ opposite_color color then -r.2.2 else r.2.2) < worst
              then (if r.2.1 ≠ opposite_color color then -r.2.2 else r.2.2) else worst) ≤ beta
          then (if r.2.1 ≠ opposite_color color then -r.2.2 else r.2.2) else beta)
        (if (if r.2.1 ≠ opposite_color color then -r.2.2 else r.2.2) < worst
          then (if r.2.1 ≠ opposite_color color then -r.2.2 else r.2.2) else worst)
        { snd with stack := st.stack, debug := snd.debug ++ ["Undid board"] }
      refine ⟨g1, by rw [g2], by rw [g3]; exact h3', by rw [g4]; exact h4', ?_⟩
      exact DebugBalanced.step h5' g5
theorem orLoop_run {B M : Type} (env : Env B M) (d : Nat)
    (hAND : ∀ board color alpha beta,
      RunsTo (MinimaxBooleanAND env board d color alpha beta)
        (andRes env board d color alpha beta)) :
    ∀ (moves : List M) (board : B) (color : Color) (alpha beta : Int)
      (is_win : Bool) (best_points : Int),
      RunsTo (orLoop env d color alpha beta is_win best_points moves board)
        (orLoopRes env d color alpha beta is_win best_points moves board) := by
  intro moves
  induction moves with
  | nil =>
    intro board color alpha beta iw bp st
    exact ⟨by rw [orLoop, orLoopRes], by rw [orLoop], by rw [orLoop],
      by rw [orLoop], by rw [orLoop]; exact DebugBalanced.rfl _⟩
  | cons move rest ih =>
    intro board color alpha beta iw bp st
    rw [orLoop, orLoopRes]
    set st1 := save_board board st with hst1
    obtain ⟨h1, h2, h3, h4, h5⟩ :=
      hAND (env.play_move_gomoku board move color) (opposite_color color) alpha beta st1
    rcases hO : MinimaxBooleanAND env (env.play_move_gomoku board move color) d
        (opposite_color color) alpha beta st1 with ⟨fst, snd⟩
    rw [hO] at h1 h2 h3 h4 h5
    simp only at h1 h2 h3 h4 h5
    subst h1
    simp only []
    have hsnd : snd.stack = board :: st.stack := by
      rw [h2, hst1]; simp [save_board]
    rw [undo_cons snd board st.stack hsnd]
    have h3' : snd.timeLimit = st.timeLimit := by
      rw [h3, hst1]; simp [save_board]
    have h4' : snd.tick = st.tick := by
      rw [h4, hst1]; simp [save_board]
    have h5' : DebugBalanced (st.debug ++ ["Stored board"]) snd.debug := by
      rw [hst1] at h5; simpa [save_board] using h5
    set r := andRes env (env.play_move_gomoku board move color) d
        (opposite_color color) alpha beta with hr
    obtain ⟨g1, g2, g3, g4, g5⟩ := ih board color
      (if (if (if r.2.1 ≠ color then -r.2.2 else r.2.2) > bp
            then (if r.2.1 ≠ color then -r.2.2 else r.2.2) else bp) ≥ alpha
        then (if (if r.2.1 ≠ color then -r.2.2 else r.2.2) > bp
            then (if r.2.1 ≠ color then -r.2.2 else r.2.2) else bp) else alpha)
      beta
      (if (if r.2.1 ≠ color then false else r.1) = true then true else iw)
      (if (if r.2.1 ≠ color then -r.2.2 else r.2.2) > bp
        then (if r.2.1 ≠ color then -r.2.2 else r.2.2) else bp)
      { snd with stack := st.stack, debug := snd.debug ++ ["Undid board"] }
    exact ⟨g1, by rw [g2], by rw [g3]; exact h3', by rw [g4]; exact h4',
      DebugBalanced.step h5' g5⟩

theorem OR_AND_run {B M : Type} (env : Env B M) :
    ∀ d : Nat,
      (∀ (board : B) (color : Color) (alpha beta : Int),
        RunsTo (MinimaxBooleanOR env board d color alpha beta)
          (orRes env board d color alpha beta))
      ∧ (∀ (board : B) (color : Color) (alpha beta : Int),
        RunsTo (MinimaxBooleanAND env board d color alpha beta)
          (andRes env board d color alpha beta)) := by
  intro d
  induction d with
  | zero =>
    constructor
    · intro board color alpha beta st
      rcases hm : env.generate_legal_moves_gomoku board with _ | ⟨m, ms⟩
      · rw [MinimaxBooleanOR.eq_1 env board color alpha beta st 0 hm]
        exact ⟨by rw [orRes.eq_1 env board color alpha beta 0 hm], rfl, rfl, rfl,
          DebugBalanced.rfl _⟩
      · rw [MinimaxBooleanOR.eq_2 env board color alpha beta st m ms hm]
        exact ⟨by rw [orRes.eq_2 env board color alpha beta m ms hm], rfl, rfl, rfl,
          DebugBalanced.rfl _⟩
    · intro board color alpha beta st
      rcases hm : env.generate_legal_moves_gomoku board with _ | ⟨m, ms⟩
      · rw [MinimaxBooleanAND.eq_1 env board color alpha beta st 0 hm]
        exact ⟨by rw [andRes.eq_1 env board color alpha beta 0 hm], rfl, rfl, rfl,
          DebugBalanced.rfl _⟩
      · rw [MinimaxBooleanAND.eq_2 env board color alpha beta st m ms hm]
        exact ⟨by rw [andRes.eq_2 env board color alpha beta m ms hm], rfl, rfl, rfl,
          DebugBalanced.rfl _⟩
  | succ d ih =>
    constructor
    · intro board color alpha beta st
      rcases hm : env.generate_legal_moves_gomoku board with _ | ⟨m, ms⟩
      · rw [MinimaxBooleanOR.eq_1 env board color alpha beta st (d + 1) hm]
        exact ⟨by rw [orRes.eq_1 env board color alpha beta (d + 1) hm], rfl, rfl, rfl,
          DebugBalanced.rfl _⟩
      · rw [MinimaxBooleanOR.eq_3 env board color alpha beta st d m ms hm,
          orRes.eq_3 env board color alpha beta d m ms hm]
        obtain ⟨g1, g2, g3, g4, g5⟩ := orLoop_run env d ih.2 (m :: ms) board color
          alpha beta false 0 { st with out := st.out ++ [toString st.timeLimit] }
        exact ⟨g1, g2, g3, g4, g5⟩
    · intro board color alpha beta st
      rcases hm : env.generate_legal_moves_gomoku board with _ | ⟨m, ms⟩
      · rw [MinimaxBooleanAND.eq_1 env board color alpha beta st (d + 1) hm]
        exact ⟨by rw [andRes.eq_1 env board color alpha beta (d + 1) hm], rfl, rfl, rfl,
          DebugBalanced.rfl _⟩
      · rw [MinimaxBooleanAND.eq_3 env board color alpha beta st d m ms hm,
          andRes.eq_3 env board color alpha beta d m ms hm]
        obtain ⟨g1, g2, g3, g4, g5⟩ := andLoop_run env d ih.1 (m :: ms) board color
          alpha beta 10000 st
        exact ⟨g1, g2, g3, g4, g5⟩
theorem minimaxLoop_run {B M : Type} (env : Env B M) (depth : Nat) (color : Color) :
    ∀ (moves : List M) (board : B) (alpha beta best_points : Int)
      (best_move : Option M) (is_win : Nat) (start_time : ℚ) (st : St B),
      (minimaxLoop env depth color alpha beta best_points best_move is_win
          start_time moves board st).1
        = Except.ok (minimaxLoopRes env depth color alpha beta best_points best_move
            is_win st.timeLimit (fun k => env.clock (st.tick + k) - start_time) moves board)
      ∧ (minimaxLoop env depth color alpha beta best_points best_move is_win
          start_time moves board st).2.stack = st.stack
      ∧ (minimaxLoop env depth color alpha beta best_points best_move is_win
          start_time moves board st).2.timeLimit = st.timeLimit
      ∧ DebugBalanced st.debug
          (minimaxLoop env depth color alpha beta best_points best_move is_win
            start_time moves board st).2.debug := by
  intro moves
  induction moves with
  | nil =>
    intro board alpha beta bp bm iw start st
    exact ⟨by rw [minimaxLoop, minimaxLoopRes], by rw [minimaxLoop],
      by rw [minimaxLoop], by rw [minimaxLoop]; exact DebugBalanced.rfl _⟩
  | cons move rest ih =>
    intro board alpha beta bp bm iw start st
    rw [minimaxLoop, minimaxLoopRes]
    dsimp only
    simp only [Nat.add_zero]
    by_cases ht : env.clock st.tick - start ≥ st.timeLimit
    · rw [if_pos ht, if_pos ht]
      exact ⟨rfl, rfl, rfl, DebugBalanced.rfl _⟩
    · rw [if_neg ht, if_neg ht]
      set st2 : St B := { st with
        tick := st.tick + 1,
        out := st.out ++ [toString (env.clock st.tick - start)] } with hst2
      set st3 := save_board board st2 with hst3
      obtain ⟨h1, h2, h3, h4, h5⟩ := (OR_AND_run env (depth - 1)).2
        (env.play_move_gomoku board move color) (opposite_color color) alpha beta st3
      rcases hO : MinimaxBooleanAND env (env.play_move_gomoku board move color)
          (depth - 1) (opposite_color color) alpha beta st3 with ⟨fst, snd⟩
      rw [hO] at h1 h2 h3 h4 h5
      simp only at h1 h2 h3 h4 h5
      subst h1
      simp only []
      have hsnd : snd.stack = board :: st.stack := by
        rw [h2, hst3]; simp [save_board, hst2]
      rw [undo_cons snd board st.stack hsnd]
      have h3' : snd.timeLimit = st.timeLimit := by
        rw [h3, hst3]; simp [save_board, hst2]
      have h4' : snd.tick = st.tick + 1 := by
        rw [h4, hst3]; simp [save_board, hst2]
      have h5' : DebugBalanced (st.debug ++ ["Stored board"]) snd.debug := by
        rw [hst3] at h5; simp only [save_board, hst2] at h5; exact h5
      set r := andRes env (env.play_move_gomoku board move color) (depth - 1)
          (opposite_color color) alpha beta with hr
      set st4 : St B := { snd with stack := st.stack, debug := snd.debug ++ ["Undid board"] } with hst4
      obtain ⟨g1, g2, g3, g4⟩ := ih board
        (if r.1 = true ∧ r.2.2 > bp then r.2.2 else alpha)
        beta
        (if r.1 = true ∧ r.2.2 > bp then r.2.2 else bp)
        (if (if r.1 = true ∧ r.2.2 > bp then 2 else iw) ≠ 2 ∧ r.2.2 = 0 then some move
          else if r.1 = true ∧ r.2.2 > bp then some move else bm)
        (if (if r.1 = true ∧ r.2.2 > bp then 2 else iw) ≠ 2 ∧ r.2.2 = 0 then 1
          else if r.1 = true ∧ r.2.2 > bp then 2 else iw)
        start st4
      refine ⟨?_, by rw [g2, hst4], by rw [g3, hst4]; exact h3', ?_⟩
      · rw [g1]
        have htick : st4.tick = st.tick + 1 := by rw [hst4]; exact h4'
        have htl : st4.timeLimit = st.timeLimit := by rw [hst4]; exact h3'
        rw [htick, htl]
        have hprof : (fun k => env.clock (st.tick + 1 + k) - start)
            = fun k => env.clock (st.tick + (k + 1)) - start := by
          funext k
          have hk : st.tick + 1 + k = st.tick + (k + 1) := by omega
          rw [hk]
        rw [hprof]
      · have hdbg : st4.debug = snd.debug ++ ["Undid board"] := by rw [hst4]
        rw [hdbg] at g4
        exact DebugBalanced.step h5' g4
theorem Minimax_run {B M : Type} (env : Env B M) (board : B) (depth : Nat)
    (color : Color) (st : St B) :
    (Minimax env board depth color st).1
      = Except.ok (minimaxRes env board depth color st.timeLimit
          (fun k => env.clock (st.tick + 1 + k) - env.clock st.tick))
    ∧ (Minimax env board depth color st).2.stack = st.stack
    ∧ (Minimax env board depth color st).2.timeLimit = st.timeLimit
    ∧ DebugBalanced st.debug (Minimax env board depth color st).2.debug := by
  rw [Minimax, minimaxRes]
  by_cases hw : (env.check_game_end_gomoku board).1 = true
      ∧ (env.check_game_end_gomoku board).2 = opposite_color color
  · rw [if_pos hw, if_pos hw]
    exact ⟨rfl, rfl, rfl, DebugBalanced.rfl _⟩
  · rw [if_neg hw, if_neg hw]
    obtain ⟨g1, g2, g3, g4⟩ := minimaxLoop_run env depth color
      (env.generate_legal_moves_gomoku board) board NINFINITY INFINITY 0 none 0
      (env.clock st.tick) { st with tick := st.tick + 1 }
    exact ⟨g1, g2, g3, g4⟩
theorem orLoopRes_irrel {B M : Type} (env : Env B M) (d : Nat)
    (hAND : ∀ (board : B) (color : Color) (alpha beta alpha' beta' : Int),
      andRes env board d color alpha beta = andRes env board d color alpha' beta') :
    ∀ (moves : List M) (board : B) (color : Color)
      (alpha beta alpha' beta' : Int) (is_win : Bool) (best_points : Int),
      orLoopRes env d color alpha beta is_win best_points moves board
        = orLoopRes env d color alpha' beta' is_win best_points moves board := by
  intro moves
  induction moves with
  | nil =>
    intro board color alpha beta alpha' beta' iw bp
    rw [orLoopRes, orLoopRes]
  | cons move rest ih =>
    intro board color alpha beta alpha' beta' iw bp
    simp only [orLoopRes]
    rw [hAND (env.play_move_gomoku board move color) (opposite_color color)
      alpha beta alpha' beta']
    exact ih board color _ _ _ _ _ _

theorem andLoopRes_irrel {B M : Type} (env : Env B M) (d : Nat)
    (hOR : ∀ (board : B) (color : Color) (alpha beta alpha' beta' : Int),
      orRes env board d color alpha beta = orRes env board d color alpha' beta') :
    ∀ (moves : List M) (board : B) (color : Color)
      (alpha beta alpha' beta' : Int) (worst_points : Int),
      andLoopRes env d color alpha beta worst_points moves board
        = andLoopRes env d color alpha' beta' worst_points moves board := by
  intro moves
  induction moves with
  | nil =>
    intro board color alpha beta alpha' beta' w
    rw [andLoopRes, andLoopRes]
  | cons move rest ih =>
    intro board color alpha beta alpha' beta' w
    simp only [andLoopRes]
    rw [hOR (env.play_move_gomoku board move color) (opposite_color color)
      alpha beta alpha' beta']
    set r := orRes env (env.play_move_gomoku board move color) d
        (opposite_color color) alpha' beta' with hr
    by_cases hw : (if r.2.1 ≠ opposite_color color then false else r.1) = false
    · rw [if_pos hw, if_pos hw]
    · rw [if_neg hw, if_neg hw]
      exact ih board color _ _ _ _ _

/-- The `alpha` / `beta` bounds are threaded through the prover but (the
cutoff tests being commented out in the source) never influence the
returned triple. -/
theorem orRes_andRes_irrel {B M : Type} (env : Env B M) :
    ∀ d : Nat,
      (∀ (board : B) (color : Color) (alpha beta alpha' beta' : Int),
        orRes env board d color alpha beta = orRes env board d color alpha' beta')
      ∧ (∀ (board : B) (color : Color) (alpha beta alpha' beta' : Int),
        andRes env board d color alpha beta = andRes env board d color alpha' beta') := by
  intro d
  induction d with
  | zero =>
    constructor
    · intro board color alpha beta alpha' beta'
      rcases hm : env.generate_legal_moves_gomoku board with _ | ⟨m, ms⟩
      · rw [orRes.eq_1 env board color alpha beta 0 hm,
          orRes.eq_1 env board color alpha' beta' 0 hm]
      · rw [orRes.eq_2 env board color alpha beta m ms hm,
          orRes.eq_2 env board color alpha' beta' m ms hm]
    · intro board color alpha beta alpha' beta'
      rcases hm : env.generate_legal_moves_gomoku board with _ | ⟨m, ms⟩
      · rw [andRes.eq_1 env board color alpha beta 0 hm,
          andRes.eq_1 env board color alpha' beta' 0 hm]
      · rw [andRes.eq_2 env board color alpha beta m ms hm,
          andRes.eq_2 env board color alpha' beta' m ms hm]
  | succ d ih =>
    constructor
    · intro board color alpha beta alpha' beta'
      rcases hm : env.generate_legal_moves_gomoku board with _ | ⟨m, ms⟩
      · rw [orRes.eq_1 env board color alpha beta (d + 1) hm,
          orRes.eq_1 env board color alpha' beta' (d + 1) hm]
      · rw [orRes.eq_3 env board color alpha beta d m ms hm,
          orRes.eq_3 env board color alpha' beta' d m ms hm]
        exact orLoopRes_irrel env d ih.2 (m :: ms) board color _ _ _ _ _ _
    · intro board color alpha beta alpha' beta'
      rcases hm : env.generate_legal_moves_gomoku board with _ | ⟨m, ms⟩
      · rw [andRes.eq_1 env board color alpha beta (d + 1) hm,
          andRes.eq_1 env board color alpha' beta' (d + 1) hm]
      · rw [andRes.eq_3 env board color alpha beta d m ms hm,
          andRes.eq_3 env board color alpha' beta' d m ms hm]
        exact andLoopRes_irrel env d ih.1 (m :: ms) board color _ _ _ _ _

/-!
Claim theorems.
-/

/-- C7: if the legal-move enumeration is empty then both prover nodes, at
every depth, return exactly the static evaluator's verdict called with
`hasLegalMoves = false`; the resulting state shows that no recursive call
and no push/pop happened (the stack and the debug log are unchanged; the
OR node only appends its `TIME_LIMIT` print to standard output). -/
theorem C7_no_moves_base_case {B M : Type} (env : Env B M) (board : B)
    (depth : Nat) (color : Color) (alpha beta : Int) (st : St B)
    (h : env.generate_legal_moves_gomoku board = []) :
    MinimaxBooleanOR env board depth color alpha beta st
      = (Except.ok (env.StatisticallyEvaluate board false),
          { st with out := st.out ++ [toString st.timeLimit] })
    ∧ MinimaxBooleanAND env board depth color alpha beta st
      = (Except.ok (env.StatisticallyEvaluate board false), st) :=
  ⟨MinimaxBooleanOR.eq_1 env board color alpha beta st depth h,
    MinimaxBooleanAND.eq_1 env board color alpha beta st depth h⟩

/-- Witness for C7 at a concrete input. -/
theorem C7_witness :
    Env.generate_legal_moves_gomoku envB 0 = []
    ∧ (MinimaxBooleanOR envB 0 3 Color.black NINFINITY INFINITY stA
        = (Except.ok (Env.StatisticallyEvaluate envB 0 false),
            { stA with out := stA.out ++ [toString stA.timeLimit] })
      ∧ MinimaxBooleanAND envB 0 3 Color.black NINFINITY INFINITY stA
        = (Except.ok (Env.StatisticallyEvaluate envB 0 false), stA)) :=
  ⟨rfl, C7_no_moves_base_case envB 0 3 Color.black NINFINITY INFINITY stA rfl⟩

/-- C8: if the terminal oracle reports the position already decided with
the opponent of the side to move as winner, `Minimax` returns `(0, none)`
(`NoWinFound`, no move) immediately: the returned state differs from the
initial one only by the initial `time.time()` reading, so no elapsed-time
comparison, no push/apply of a candidate and no prover recursion took
place. -/
theorem C8_terminal_early_return {B M : Type} (env : Env B M) (board : B)
    (depth : Nat) (color : Color) (st : St B)
    (h : env.check_game_end_gomoku board = (true, opposite_color color)) :
    Minimax (M := M) env board depth color st
      = (Except.ok (0, none), { st with tick := st.tick + 1 }) := by
  rw [Minimax]
  rw [if_pos ⟨by rw [h], by rw [h]⟩]

/-- Witness for C8 at a concrete input. -/
theorem C8_witness :
    Env.check_game_end_gomoku envE 0 = (true, opposite_color Color.black)
    ∧ Minimax envE 0 2 Color.black stA
      = (Except.ok (0, none), { stA with tick := stA.tick + 1 }) :=
  ⟨rfl, C8_terminal_early_return envE 0 2 Color.black stA rfl⟩

/-- C2: at the head of every candidate iteration of the driver's loop the
elapsed time since the call's start is compared with the configured time
limit, and when it is at or beyond the limit the whole call returns
`(4, none)` (`Timeout`, no move) at once — whatever best move and outcome
had been recorded (`best_move`, `is_win` are arbitrary here) are discarded,
and the returned state shows the remaining candidates were not explored
(no push, no pop, no log; only this reading's clock advance). -/
theorem C2_timeout_aborts {B M : Type} (env : Env B M) (depth : Nat)
    (color : Color) (alpha beta best_points : Int) (best_move : Option M)
    (is_win : Nat) (start_time : ℚ) (move : M) (rest : List M) (board : B)
    (st : St B)
    (h : env.clock st.tick - start_time ≥ st.timeLimit) :
    minimaxLoop env depth color alpha beta best_points best_move is_win
        start_time (move :: rest) board st
      = (Except.ok (4, none), { st with tick := st.tick + 1 }) := by
  rw [minimaxLoop]
  exact if_pos h

/-- Witness for C2 at a concrete input: a best move (`10`, a proven win)
was already recorded, yet the timeout returns `(4, none)`. -/
theorem C2_witness :
    Env.clock envA stZ.tick - 0 ≥ stZ.timeLimit
    ∧ minimaxLoop envA 2 Color.black NINFINITY INFINITY 5 (some 10) 2 0
        [20] 0 stZ
      = (Except.ok (4, none), { stZ with tick := stZ.tick + 1 }) :=
  ⟨by norm_num [envA, stZ],
    C2_timeout_aborts envA 2 Color.black NINFINITY INFINITY 5 (some 10) 2 0
      20 [] 0 stZ (by norm_num [envA, stZ])⟩

/-- C3: a complete `Minimax` call — over all its recursive
`MinimaxBooleanOR` / `MinimaxBooleanAND` calls and on every return path,
the AND-node short-circuit and the timeout return included — performs
exactly as many pops as pushes (the debug log records one `"Stored board"`
per push and one `"Undid board"` per pop, and the call adds equally many
of each), so the snapshot stack is exactly as deep on exit as on entry;
in particular the call never underflows the stack (it returns a value,
not an exception). -/
theorem C3_stack_balance {B M : Type} (env : Env B M) (board : B)
    (depth : Nat) (color : Color) (st : St B) :
    (∃ r, (Minimax env board depth color st).1 = Except.ok r)
    ∧ (Minimax env board depth color st).2.stack.length = st.stack.length
    ∧ (Minimax env board depth color st).2.debug.count "Stored board"
        + st.debug.count "Undid board"
      = (Minimax env board depth color st).2.debug.count "Undid board"
        + st.debug.count "Stored board" := by
  obtain ⟨g1, g2, g3, g4⟩ := Minimax_run env board depth color st
  exact ⟨⟨_, g1⟩, by rw [g2], g4.2⟩

/-- C5 counterexample: `undo` on an empty stack does not proceed with an
absent value — the underlying `stack.pop()` raises (`Except.error` in this
embedding), so its result is an exception, not a success carrying an
absent board. -/
theorem C5_counterexample :
    (undo (B := Nat) ⟨[], [], [], 1, 0⟩).1
      = Except.error "IndexError: pop from empty list" := by
  rfl

/-- C5 amended: `undo` on an empty stack logs (appends `"Undid board"` to
the debug log, prints `"Stack is empty!"`) and then fails — the underlying
`stack.pop()` raises `IndexError` — so the caller's search aborts
exceptionally instead of continuing with an absent value. -/
theorem C5_amended {B : Type} (st : St B) (h : st.stack = []) :
    undo st
      = (Except.error "IndexError: pop from empty list",
          { st with debug := st.debug ++ ["Undid board"],
                    out := st.out ++ ["Stack is empty!"] }) := by
  rw [undo]
  simp [h]

/-- Witness for C5 at a concrete input. -/
theorem C5_witness :
    (stA.stack = [])
    ∧ undo stA
      = (Except.error "IndexError: pop from empty list",
          { stA with debug := stA.debug ++ ["Undid board"],
                     out := stA.out ++ ["Stack is empty!"] }) :=
  ⟨rfl, C5_amended stA rfl⟩

/-- C6 counterexample: with the time budget `0`, on a position with no
legal moves `Minimax` does not return `Timeout` — it returns `(0, none)`
(`NoWinFound`), because the candidate loop (and with it the elapsed-time
check) is never entered. -/
theorem C6_counterexample :
    stZ.timeLimit = 0
    ∧ (Minimax envB 0 2 Color.black stZ).1 = Except.ok (0, none)
    ∧ (Minimax envB 0 2 Color.black stZ).1 ≠ Except.ok (4, none) := by
  have h : (Minimax envB 0 2 Color.black stZ).1 = Except.ok (0, none) := by
    norm_num [Minimax, minimaxLoop, envB, stZ]
  exact ⟨rfl, h, by rw [h]; simp⟩

/-- C6 amended: with the time budget `0`, on a position that has at least
one legal move and is not already decided in favour of the opponent, and
with a clock that has not gone backwards between the call's start and the
first check, `Minimax` returns `(4, none)` (`Timeout`, no move) at the
first elapsed-time check; the returned state shows no candidate was even
started (no push, no pop, no log — only the two clock readings). -/
theorem C6_amended {B M : Type} (env : Env B M) (board : B) (depth : Nat)
    (color : Color) (st : St B) (move : M) (rest : List M)
    (hmoves : env.generate_legal_moves_gomoku board = move :: rest)
    (hterm : ¬((env.check_game_end_gomoku board).1 = true
      ∧ (env.check_game_end_gomoku board).2 = opposite_color color))
    (hlimit : st.timeLimit = 0)
    (hclock : env.clock (st.tick + 1) - env.clock st.tick ≥ 0) :
    Minimax env board depth color st
      = (Except.ok (4, none), { st with tick := st.tick + 2 }) := by
  rw [Minimax]
  rw [if_neg hterm, hmoves]
  rw [minimaxLoop]
  have h' : env.clock (st.tick + 1) - env.clock st.tick ≥ st.timeLimit := by
    rw [hlimit]; exact hclock
  exact if_pos h'

/-- Witness for C6 at a concrete input. -/
theorem C6_witness :
    Env.generate_legal_moves_gomoku envA 0 = [10, 20]
    ∧ stZ.timeLimit = 0
    ∧ Minimax envA 0 2 Color.black stZ
      = (Except.ok (4, none), { stZ with tick := stZ.tick + 2 }) :=
  ⟨rfl, rfl,
    C6_amended envA 0 2 Color.black stZ 10 [20] rfl (by simp [envA]) rfl
      (by norm_num [envA])⟩

/-- C9 counterexample: two successive `Minimax` calls on the same,
unmodified position, with the snapshot stack exactly restored between the
calls, can return different outcomes: with `envC`'s clock the first call
returns a draw with move `7`, while the second call — started at a later
clock position — hits the time budget at its first check and returns
`(4, none)`. -/
theorem C9_counterexample :
    (Minimax envC 0 2 Color.black stA).1 = Except.ok (1, some 7)
    ∧ (Minimax envC 0 2 Color.black stA).2.stack = stA.stack
    ∧ (Minimax envC 0 2 Color.black
        (Minimax envC 0 2 Color.black stA).2).1 = Except.ok (4, none) := by
  refine ⟨?_, ?_, ?_⟩ <;>
    norm_num [Minimax, minimaxLoop, MinimaxBooleanAND, MinimaxBooleanOR,
      andLoop, orLoop, save_board, undo, envC, stA, opposite_color,
      NINFINITY, INFINITY]

/-- C9 amended: two successive `Minimax` calls on the same position return
the same outcome and move provided the clock advances relative to each
call's start in the same way (equal elapsed-time profiles); apart from the
clock position, the first call restores the shared state the second call
depends on (stack and time limit). -/
theorem C9_amended {B M : Type} (env : Env B M) (board : B) (depth : Nat)
    (color : Color) (st : St B)
    (hprof : ∀ k, env.clock ((Minimax env board depth color st).2.tick + 1 + k)
        - env.clock ((Minimax env board depth color st).2.tick)
      = env.clock (st.tick + 1 + k) - env.clock st.tick) :
    (Minimax env board depth color (Minimax env board depth color st).2).1
      = (Minimax env board depth color st).1 := by
  obtain ⟨g1, g2, g3, g4⟩ := Minimax_run env board depth color st
  obtain ⟨f1, f2, f3, f4⟩ :=
    Minimax_run env board depth color (Minimax env board depth color st).2
  rw [f1, g1, g3]
  have hfun : (fun k => env.clock ((Minimax env board depth color st).2.tick + 1 + k)
        - env.clock ((Minimax env board depth color st).2.tick))
      = fun k => env.clock (st.tick + 1 + k) - env.clock st.tick := funext hprof
  rw [hfun]

/-- Witness for C9 at a concrete input (a constant clock: the elapsed-time
profiles of the two calls agree). -/
theorem C9_witness :
    (∀ k : Nat, Env.clock envA ((Minimax envA 0 2 Color.black stA).2.tick + 1 + k)
        - Env.clock envA ((Minimax envA 0 2 Color.black stA).2.tick)
      = Env.clock envA (stA.tick + 1 + k) - Env.clock envA stA.tick)
    ∧ (Minimax envA 0 2 Color.black
        (Minimax envA 0 2 Color.black stA).2).1
      = (Minimax envA 0 2 Color.black stA).1 :=
  ⟨fun _ => rfl, C9_amended envA 0 2 Color.black stA fun _ => rfl⟩

/-- The OR loop's running maximum never decreases: the final score is at
least the accumulator it started from. -/
theorem orLoopRes_score_ge {B M : Type} (env : Env B M) (d : Nat) :
    ∀ (moves : List M) (board : B) (color : Color) (alpha beta : Int)
      (is_win : Bool) (best_points : Int),
      (orLoopRes env d color alpha beta is_win best_points moves board).2.2
        ≥ best_points := by
  intro moves
  induction moves with
  | nil =>
    intro board color alpha beta iw bp
    rw [orLoopRes]
  | cons move rest ih =>
    intro board color alpha beta iw bp
    rw [orLoopRes]
    refine le_trans ?_ (ih board color _ _ _ _)
    split <;> omega

/-- If every re-perspectived child score is negative, the OR loop's
running maximum stays at `0`. -/
theorem orLoopRes_allneg {B M : Type} (env : Env B M) (d : Nat) :
    ∀ (moves : List M) (board : B) (color : Color) (alpha beta : Int)
      (is_win : Bool),
      (∀ mv ∈ moves, orChildScore env board d color mv < 0) →
      (orLoopRes env d color alpha beta is_win 0 moves board).2.2 = 0 := by
  intro moves
  induction moves with
  | nil =>
    intro board color alpha beta iw _
    rw [orLoopRes]
  | cons move rest ih =>
    intro board color alpha beta iw hneg
    rw [orLoopRes]
    rw [(orRes_andRes_irrel env d).2 (env.play_move_gomoku board move color)
      (opposite_color color) alpha beta NINFINITY INFINITY]
    have hm := hneg move (by simp)
    simp only [orChildScore] at hm
    set p := (if (andRes env (env.play_move_gomoku board move color) d
          (opposite_color color) NINFINITY INFINITY).2.1 ≠ color
        then -(andRes env (env.play_move_gomoku board move color) d
          (opposite_color color) NINFINITY INFINITY).2.2
        else (andRes env (env.play_move_gomoku board move color) d
          (opposite_color color) NINFINITY INFINITY).2.2) with hp
    rw [if_neg (by omega : ¬p > 0)]
    exact ih board color _ _ _ fun mv hmv => hneg mv (by simp [hmv])

/-- C10: at depth at least `1` on a position with legal moves, the OR node
returns a score that is at least `0` (its running maximum starts at `0`
and only grows); if every re-perspectived child score is negative the
score is exactly `0`; and the driver records a candidate whose AND result
scored exactly `0` as a draw (`is_win = 1`) with that move when no win was
recorded and the budget is not exhausted. -/
theorem C10_or_score_nonneg {B M : Type} (env : Env B M) (board : B)
    (d : Nat) (color : Color) (alpha beta : Int) (st : St B)
    (move : M) (rest : List M)
    (hmoves : env.generate_legal_moves_gomoku board = move :: rest) :
    (MinimaxBooleanOR env board (d + 1) color alpha beta st).1
      = Except.ok (orRes env board (d + 1) color alpha beta)
    ∧ (orRes env board (d + 1) color alpha beta).2.2 ≥ 0
    ∧ ((∀ mv ∈ move :: rest, orChildScore env board d color mv < 0) →
        (orRes env board (d + 1) color alpha beta).2.2 = 0)
    ∧ (∀ (depth : Nat) (bm : Option M) (iw : Nat) (start : ℚ) (b2 : B)
        (stD : St B) (mv : M),
        iw ≠ 2 →
        ¬(env.clock stD.tick - start ≥ stD.timeLimit) →
        (driverChildRes env b2 depth color mv).2.2 = 0 →
        (minimaxLoop env depth color NINFINITY INFINITY 0 bm iw start
            [mv] b2 stD).1
          = Except.ok (1, some mv)) := by
  refine ⟨((OR_AND_run env (d + 1)).1 board color alpha beta st).1, ?_, ?_, ?_⟩
  · rw [orRes.eq_3 env board color alpha beta d move rest hmoves]
    exact orLoopRes_score_ge env d (move :: rest) board color alpha beta false 0
  · intro hneg
    rw [orRes.eq_3 env board color alpha beta d move rest hmoves]
    exact orLoopRes_allneg env d (move :: rest) board color alpha beta false hneg
  · intro depth bm iw start b2 stD mv hiw ht hsc
    obtain ⟨g1, g2, g3, g4⟩ := minimaxLoop_run env depth color [mv] b2
      NINFINITY INFINITY 0 bm iw start stD
    rw [g1]
    rw [minimaxLoopRes]
    rw [if_neg (show ¬(env.clock (stD.tick + 0) - start ≥ stD.timeLimit) by
      simpa using ht)]
    simp only [driverChildRes] at hsc
    simp only [hsc]
    simp [hiw, minimaxLoopRes]

/-- Witness for C10 at a concrete input. -/
theorem C10_witness :
    Env.generate_legal_moves_gomoku envA 0 = [10, 20]
    ∧ ((MinimaxBooleanOR envA 0 1 Color.black NINFINITY INFINITY stA).1
        = Except.ok (orRes envA 0 1 Color.black NINFINITY INFINITY)
      ∧ (orRes envA 0 1 Color.black NINFINITY INFINITY).2.2 ≥ 0
      ∧ ((∀ mv ∈ [10, 20], orChildScore envA 0 0 Color.black mv < 0) →
          (orRes envA 0 1 Color.black NINFINITY INFINITY).2.2 = 0)
      ∧ (∀ (depth : Nat) (bm : Option Nat) (iw : Nat) (start : ℚ) (b2 : Nat)
          (stD : St Nat) (mv : Nat),
          iw ≠ 2 →
          ¬(Env.clock envA stD.tick - start ≥ stD.timeLimit) →
          (driverChildRes envA b2 depth Color.black mv).2.2 = 0 →
          (minimaxLoop envA depth Color.black NINFINITY INFINITY 0 bm iw start
              [mv] b2 stD).1
            = Except.ok (1, some mv))) :=
  ⟨rfl, C10_or_score_nonneg envA 0 0 Color.black NINFINITY INFINITY stA 10 [20] rfl⟩

/-- Driver loop invariant: while no candidate satisfies the win-improvement
test over a running best of `0`, the running best stays `0` and every
zero-scoring candidate overwrites the recorded draw move, so the loop ends
in `(1, last zero-scoring candidate)` — or keeps its incoming
`(is_win, best_move)` if no candidate scores zero. -/
theorem minimaxLoopRes_nowin {B M : Type} (env : Env B M) (depth : Nat)
    (color : Color) (board : B) :
    ∀ (moves : List M) (alpha beta : Int) (best_move : Option M) (is_win : Nat)
      (timeLimit : ℚ) (elapsedAt : Nat → ℚ),
      is_win ≠ 2 →
      (∀ i < moves.length, elapsedAt i < timeLimit) →
      (∀ mv ∈ moves, ¬((driverChildRes env board depth color mv).1 = true
        ∧ (driverChildRes env board depth color mv).2.2 > 0)) →
      minimaxLoopRes env depth color alpha beta 0 best_move is_win
          timeLimit elapsedAt moves board
        = match (moves.filter
            (fun mv => (driverChildRes env board depth color mv).2.2 = 0)).getLast? with
          | some mv => (1, some mv)
          | none => (is_win, best_move) := by
  intro moves
  induction moves with
  | nil =>
    intro alpha beta bm iw tl el _ _ _
    rw [minimaxLoopRes]
    simp
  | cons mv rest ih =>
    intro alpha beta bm iw tl el hiw htime hnw
    rw [minimaxLoopRes]
    rw [if_neg (not_le.mpr (htime 0 (by simp)))]
    rw [(orRes_andRes_irrel env (depth - 1)).2 (env.play_move_gomoku board mv color)
      (opposite_color color) alpha beta NINFINITY INFINITY]
    have hmem : mv ∈ mv :: rest := by simp
    have hnw0 := hnw mv hmem
    simp only [driverChildRes] at hnw0
    simp only [if_neg hnw0]
    by_cases hz : (andRes env (env.play_move_gomoku board mv color) (depth - 1)
        (opposite_color color) NINFINITY INFINITY).2.2 = 0
    · simp only [if_pos (⟨hiw, hz⟩ : iw ≠ 2
        ∧ (andRes env (env.play_move_gomoku board mv color) (depth - 1)
            (opposite_color color) NINFINITY INFINITY).2.2 = 0)]
      rw [ih alpha beta (some mv) 1 tl (fun k => el (k + 1)) (by omega)
        (fun i hi => htime (i + 1) (by simpa using Nat.succ_lt_succ hi))
        (fun x hx => hnw x (by simp [hx]))]
      rw [List.filter_cons_of_pos (by simpa [driverChildRes] using hz)]
      rcases hf : rest.filter
          (fun x => decide ((driverChildRes env board depth color x).2.2 = 0)) with _ | ⟨y, ys⟩
      · simp
      · rcases hg : (y :: ys).getLast? with _ | z
        · exact absurd (List.getLast?_eq_none_iff.mp hg) (by simp)
        · rw [List.getLast?_cons_cons, hg]
    · simp only [if_neg (fun h => hz h.2 :
        ¬(iw ≠ 2 ∧ (andRes env (env.play_move_gomoku board mv color) (depth - 1)
            (opposite_color color) NINFINITY INFINITY).2.2 = 0))]
      rw [ih alpha beta bm iw tl (fun k => el (k + 1)) hiw
        (fun i hi => htime (i + 1) (by simpa using Nat.succ_lt_succ hi))
        (fun x hx => hnw x (by simp [hx]))]
      rw [List.filter_cons_of_neg (by simpa [driverChildRes] using hz)]

/-- Driver loop invariant: once a win with score `s` is recorded (running
best `s`, outcome `2`, move `m0`), later candidates that also prove a win
with the same score `s` never replace it — the improvement test
`points > best_points` is strict. -/
theorem minimaxLoopRes_allwin {B M : Type} (env : Env B M) (depth : Nat)
    (color : Color) (board : B) (s : Int) :
    ∀ (moves : List M) (alpha beta : Int) (m0 : M)
      (timeLimit : ℚ) (elapsedAt : Nat → ℚ),
      (∀ i < moves.length, elapsedAt i < timeLimit) →
      (∀ mv ∈ moves, (driverChildRes env board depth color mv).1 = true
        ∧ (driverChildRes env board depth color mv).2.2 = s) →
      minimaxLoopRes env depth color alpha beta s (some m0) 2
          timeLimit elapsedAt moves board
        = (2, some m0) := by
  intro moves
  induction moves with
  | nil =>
    intro alpha beta m0 tl el _ _
    rw [minimaxLoopRes]
  | cons mv rest ih =>
    intro alpha beta m0 tl el htime hwin
    rw [minimaxLoopRes]
    rw [if_neg (not_le.mpr (htime 0 (by simp)))]
    rw [(orRes_andRes_irrel env (depth - 1)).2 (env.play_move_gomoku board mv color)
      (opposite_color color) alpha beta NINFINITY INFINITY]
    obtain ⟨hw0, hs0⟩ := hwin mv (by simp)
    simp only [driverChildRes] at hw0 hs0
    have himp : ¬((andRes env (env.play_move_gomoku board mv color) (depth - 1)
        (opposite_color color) NINFINITY INFINITY).1 = true
      ∧ (andRes env (env.play_move_gomoku board mv color) (depth - 1)
        (opposite_color color) NINFINITY INFINITY).2.2 > s) := by
      rintro ⟨-, hgt⟩
      rw [hs0] at hgt
      exact lt_irrefl s hgt
    simp only [if_neg himp]
    have hdraw : ¬((2 : Nat) ≠ 2 ∧ (andRes env (env.play_move_gomoku board mv color)
        (depth - 1) (opposite_color color) NINFINITY INFINITY).2.2 = 0) := by
      rintro ⟨h2, -⟩
      exact h2 rfl
    simp only [if_neg hdraw]
    exact ih alpha beta m0 tl (fun k => el (k + 1))
      (fun i hi => htime (i + 1) (by simpa using Nat.succ_lt_succ hi))
      (fun x hx => hwin x (by simp [hx]))

/-- C1 counterexample: with two candidate moves `10` and `20` whose AND
results both score exactly `0` and prove no win, `Minimax` returns `Draw`
carrying the *second* move `20` — the first zero-scoring move `10` is
overwritten, contradicting the claim that the first enumerated zero-score
move is kept. -/
theorem C1_counterexample :
    Env.generate_legal_moves_gomoku envA 0 = [10, 20]
    ∧ (driverChildRes envA 0 2 Color.black 10).1 = false
    ∧ (driverChildRes envA 0 2 Color.black 10).2.2 = 0
    ∧ (driverChildRes envA 0 2 Color.black 20).1 = false
    ∧ (driverChildRes envA 0 2 Color.black 20).2.2 = 0
    ∧ (Minimax envA 0 2 Color.black stA).1 = Except.ok (1, some 20) := by
  refine ⟨rfl, ?_, ?_, ?_, ?_, ?_⟩ <;>
    norm_num [Minimax, minimaxLoop, MinimaxBooleanAND, MinimaxBooleanOR, andLoop,
      orLoop, save_board, undo, driverChildRes, andRes, orRes, andLoopRes,
      orLoopRes, envA, stA, opposite_color, NINFINITY, INFINITY]

/-- C1 amended: among winning candidates the strict `>` test keeps the
first move of any given proven score (second conjunct: if every candidate
proves a win with the same positive score, the first enumerated move is
returned); but when no candidate passes the win-improvement test and some
candidate scores exactly `0`, `Minimax` returns `Draw` carrying the *last*
enumerated zero-scoring move (each later zero-score candidate replaces the
recorded one), and `NoWinFound` with no move if no candidate scores `0`. -/
theorem C1_amended {B M : Type} (env : Env B M) (board : B) (depth : Nat)
    (color : Color) (st : St B)
    (hterm : ¬((env.check_game_end_gomoku board).1 = true
      ∧ (env.check_game_end_gomoku board).2 = opposite_color color))
    (htime : ∀ i < (env.generate_legal_moves_gomoku board).length,
      env.clock (st.tick + 1 + i) - env.clock st.tick < st.timeLimit) :
    ((∀ mv ∈ env.generate_legal_moves_gomoku board,
        ¬((driverChildRes env board depth color mv).1 = true
          ∧ (driverChildRes env board depth color mv).2.2 > 0)) →
      (Minimax env board depth color st).1
        = Except.ok
            (match ((env.generate_legal_moves_gomoku board).filter
                (fun mv => (driverChildRes env board depth color mv).2.2 = 0)).getLast? with
              | some mv => ((1 : Nat), some mv)
              | none => (0, none)))
    ∧ (∀ (m0 : M) (rest : List M) (s : Int),
        env.generate_legal_moves_gomoku board = m0 :: rest →
        s > 0 →
        (∀ mv ∈ env.generate_legal_moves_gomoku board,
          (driverChildRes env board depth color mv).1 = true
          ∧ (driverChildRes env board depth color mv).2.2 = s) →
        (Minimax env board depth color st).1 = Except.ok (2, some m0)) := by
  obtain ⟨g1, g2, g3, g4⟩ := Minimax_run env board depth color st
  constructor
  · intro hnw
    rw [g1, minimaxRes]
    rw [if_neg hterm]
    rw [minimaxLoopRes_nowin env depth color board
      (env.generate_legal_moves_gomoku board) NINFINITY INFINITY none 0
      st.timeLimit _ (by omega) (fun i hi => htime i hi) hnw]
  · intro m0 rest s hm0 hs hwin
    rw [g1, minimaxRes]
    rw [if_neg hterm]
    rw [hm0]
    rw [minimaxLoopRes]
    rw [if_neg (not_le.mpr (htime 0 (by rw [hm0]; simp)))]
    obtain ⟨hw0, hs0⟩ := hwin m0 (by rw [hm0]; simp)
    simp only [driverChildRes] at hw0 hs0
    have himp : (andRes env (env.play_move_gomoku board m0 color) (depth - 1)
        (opposite_color color) NINFINITY INFINITY).1 = true
      ∧ (andRes env (env.play_move_gomoku board m0 color) (depth - 1)
        (opposite_color color) NINFINITY INFINITY).2.2 > 0 :=
      ⟨hw0, by rw [hs0]; exact hs⟩
    simp only [if_pos himp]
    have hdraw : ¬((2 : Nat) ≠ 2 ∧ (andRes env (env.play_move_gomoku board m0 color)
        (depth - 1) (opposite_color color) NINFINITY INFINITY).2.2 = 0) := by
      rintro ⟨h2, -⟩
      exact h2 rfl
    simp only [if_neg hdraw]
    rw [hs0]
    exact congrArg Except.ok (minimaxLoopRes_allwin env depth color board s rest
      s INFINITY m0 st.timeLimit _
      (fun i hi => htime (i + 1) (by rw [hm0]; simpa using Nat.succ_lt_succ hi))
      (fun x hx => hwin x (by rw [hm0]; simp [hx])))

/-- Witness for C1 at a concrete input (both candidates score `0` and
prove no win, so the no-win branch of the amended claim applies and
returns the last zero-scoring move). -/
theorem C1_witness :
    (Minimax envA 0 2 Color.black stA).1 = Except.ok (1, some 20) := by
  have h := (C1_amended envA 0 2 Color.black stA (by simp [envA])
      (by norm_num [envA, stA])).1
    (by
      intro mv hmv
      simp only [envA] at hmv
      norm_num at hmv
      rcases hmv with rfl | rfl <;>
        norm_num [driverChildRes, andRes, envA, opposite_color])
  rw [h]
  norm_num [driverChildRes, andRes, envA, opposite_color]

/-- AND loop: the first re-perspectived child that does not prove a win
yields an immediate `(false, opponent, that child's score)` result,
whatever moves follow it. -/
theorem andLoopRes_shortcircuit {B M : Type} (env : Env B M) (d : Nat)
    (color : Color) (board : B) :
    ∀ (ms₁ : List M) (mv : M) (ms₂ : List M) (alpha beta worst : Int),
      (∀ x ∈ ms₁, (andChildRes env board d color x).1 = true) →
      (andChildRes env board d color mv).1 = false →
      andLoopRes env d color alpha beta worst (ms₁ ++ mv :: ms₂) board
        = (false, opposite_color color, (andChildRes env board d color mv).2) := by
  intro ms₁
  induction ms₁ with
  | nil =>
    intro mv ms₂ alpha beta worst _ hmv
    rw [List.nil_append, andLoopRes]
    rw [(orRes_andRes_irrel env d).1 (env.play_move_gomoku board mv color)
      (opposite_color color) alpha beta NINFINITY INFINITY]
    simp only [andChildRes] at hmv ⊢
    rw [if_pos hmv]
  | cons x ms₁ ih =>
    intro mv ms₂ alpha beta worst hall hmv
    rw [List.cons_append, andLoopRes]
    rw [(orRes_andRes_irrel env d).1 (env.play_move_gomoku board x color)
      (opposite_color color) alpha beta NINFINITY INFINITY]
    have hx := hall x (by simp)
    simp only [andChildRes] at hx
    rw [if_neg (by rw [hx]; simp)]
    exact ih mv ms₂ _ _ _ (fun y hy => hall y (by simp [hy])) hmv

/-- AND loop: when every re-perspectived child proves a win, the loop
exhausts all moves and returns the minimum of the initial `worst_points`
accumulator and the child scores. -/
theorem andLoopRes_allwin {B M : Type} (env : Env B M) (d : Nat)
    (color : Color) (board : B) :
    ∀ (moves : List M) (alpha beta worst : Int),
      (∀ x ∈ moves, (andChildRes env board d color x).1 = true) →
      andLoopRes env d color alpha beta worst moves board
        = (true, opposite_color color,
            moves.foldl (fun acc x => min acc (andChildRes env board d color x).2)
              worst) := by
  intro moves
  induction moves with
  | nil =>
    intro alpha beta worst _
    rw [andLoopRes, List.foldl_nil]
  | cons x rest ih =>
    intro alpha beta worst hall
    rw [andLoopRes]
    rw [(orRes_andRes_irrel env d).1 (env.play_move_gomoku board x color)
      (opposite_color color) alpha beta NINFINITY INFINITY]
    have hx := hall x (by simp)
    simp only [andChildRes] at hx
    rw [if_neg (by rw [hx]; simp)]
    rw [ih _ _ _ (fun y hy => hall y (by simp [hy]))]
    rw [List.foldl_cons]
    simp only [andChildRes]
    set s := orRes env (env.play_move_gomoku board x color) d
        (opposite_color color) NINFINITY INFINITY with hs
    set P := if s.2.1 ≠ opposite_color color then -s.2.2 else s.2.2 with hP
    have hinit : (if P < worst then P else worst) = worst ⊓ P := by
      rcases lt_or_le P worst with h | h
      · rw [if_pos h, inf_eq_right.mpr h.le]
      · rw [if_neg (not_lt.mpr h), inf_eq_left.mpr h]
    rw [hinit]

/-- C4 counterexample: the board `0` (side `white` to move in the AND node)
has the single reply `5`, whose re-perspectived OR result proves a win
with score `20000` — so the minimum child score is `20000` — yet
`MinimaxBooleanAND` returns score `10000`: the running minimum starts at
the sentinel `10000`, which caps the returned score. -/
theorem C4_counterexample :
    Env.generate_legal_moves_gomoku envD 0 = [5]
    ∧ andChildRes envD 0 0 Color.white 5 = (true, 20000)
    ∧ (MinimaxBooleanAND envD 0 1 Color.white NINFINITY INFINITY stA).1
        = Except.ok (true, Color.black, 10000) := by
  refine ⟨rfl, ?_, ?_⟩
  · norm_num [andChildRes, orRes, envD, opposite_color]
  · have h1 := ((OR_AND_run envD 1).2 0 Color.white NINFINITY INFINITY stA).1
    rw [h1, andRes.eq_3 envD 0 Color.white NINFINITY INFINITY 0 5 [] rfl]
    norm_num [andLoopRes, orRes, envD, opposite_color]

/-- C4 amended: (first conjunct) in the AND loop the first child move whose
re-perspectived OR result does not prove a win causes an immediate
`(false, opponent-of-node, that child's score)` return — the result is the
same for every continuation `ms₂` of the move list, so later moves are
never examined — with the snapshot stack restored; (second conjunct) if
every child proves a win, the node returns
`(true, opponent-of-node, min(10000, minimum child score))` after
exhausting all moves: the minimum is capped by the `10000` the accumulator
starts at, rather than being the plain minimum child score. -/
theorem C4_amended {B M : Type} (env : Env B M) (d : Nat) (color : Color)
    (alpha beta : Int) (st : St B) (board : B) :
    (∀ (ms₁ : List M) (mv : M) (ms₂ : List M) (worst : Int),
      (∀ x ∈ ms₁, (andChildRes env board d color x).1 = true) →
      (andChildRes env board d color mv).1 = false →
      (andLoop env d color alpha beta worst (ms₁ ++ mv :: ms₂) board st).1
        = Except.ok (false, opposite_color color, (andChildRes env board d color mv).2)
      ∧ (andLoop env d color alpha beta worst (ms₁ ++ mv :: ms₂) board st).2.stack
        = st.stack)
    ∧ (∀ (mv : M) (ms : List M),
        env.generate_legal_moves_gomoku board = mv :: ms →
        (∀ x ∈ mv :: ms, (andChildRes env board d color x).1 = true) →
        (MinimaxBooleanAND env board (d + 1) color alpha beta st).1
          = Except.ok (true, opposite_color color,
              (mv :: ms).foldl
                (fun acc x => min acc (andChildRes env board d color x).2)
                10000)) := by
  constructor
  · intro ms₁ mv ms₂ worst hall hmv
    obtain ⟨g1, g2, -, -, -⟩ := andLoop_run env d (OR_AND_run env d).1
      (ms₁ ++ mv :: ms₂) board color alpha beta worst st
    refine ⟨?_, g2⟩
    rw [g1, andLoopRes_shortcircuit env d color board ms₁ mv ms₂ alpha beta worst
      hall hmv]
  · intro mv ms hm hall
    have h1 := ((OR_AND_run env (d + 1)).2 board color alpha beta st).1
    rw [h1, andRes.eq_3 env board color alpha beta d mv ms hm]
    rw [andLoopRes_allwin env d color board (mv :: ms) alpha beta 10000 hall]

/-- Witness for C4 at concrete inputs: the short-circuit conjunct on a
child (`10` in `envA`) that does not prove a win, and the exhaustive
conjunct on `envD`, whose single child proves a win. -/
theorem C4_witness :
    ((andLoop envA 0 Color.black NINFINITY INFINITY 10000 ([] ++ 10 :: [20]) 0 stA).1
        = Except.ok (false, opposite_color Color.black,
            (andChildRes envA 0 0 Color.black 10).2)
      ∧ (andLoop envA 0 Color.black NINFINITY INFINITY 10000 ([] ++ 10 :: [20]) 0 stA).2.stack
        = stA.stack)
    ∧ (MinimaxBooleanAND envD 0 (0 + 1) Color.white NINFINITY INFINITY stA).1
        = Except.ok (true, opposite_color Color.white,
            ([5] : List Nat).foldl
              (fun acc x => min acc (andChildRes envD 0 0 Color.white x).2)
              10000) :=
  ⟨(C4_amended envA 0 Color.black NINFINITY INFINITY stA 0).1 [] 10 [20] 10000
      (by simp)
      (by norm_num [andChildRes, orRes, envA, opposite_color]),
    (C4_amended envD 0 Color.white NINFINITY INFINITY stA 0).2 5 [] rfl
      (by
        intro x hx
        norm_num at hx
        subst hx
        norm_num [andChildRes, orRes, envD, opposite_color])⟩
